import Mathlib

/-!
Shallow embedding of the birthday-bot repository (src/main.py and friends):
a calendar-date model mirroring Python's `datetime.date`, the CSV row/date
parsing of `fetch_birthdays`, the next-occurrence / delta computation and
notification selection of `main`, and the digest sorting and chunking of
`send_all_birthdays_list`.  Theorems C1 .. C10 settle the frozen claims.
-/

namespace BirthdayBot

/-- Calendar date, mirroring Python `datetime.date` (year, month, day). -/
structure Date where
  year : Nat
  month : Nat
  day : Nat
deriving DecidableEq, Repr

/-- Gregorian leap-year rule used by Python's calendar. -/
def isLeap (y : Nat) : Bool :=
  (y % 4 == 0 && y % 100 != 0) || y % 400 == 0

/-- Number of days in a month of a given year, as in Python's calendar. -/
def daysInMonth (y m : Nat) : Nat :=
  if m = 2 then (if isLeap y then 29 else 28)
  else if m = 4 ∨ m = 6 ∨ m = 9 ∨ m = 11 then 30
  else 31

/-- Validity of a date: exactly the values `datetime.date` accepts
(year 1..9999 per MINYEAR/MAXYEAR, month 1..12, day within the month). -/
def Date.valid (d : Date) : Prop :=
  1 ≤ d.year ∧ d.year ≤ 9999 ∧ 1 ≤ d.month ∧ d.month ≤ 12 ∧
    1 ≤ d.day ∧ d.day ≤ daysInMonth d.year d.month

instance (d : Date) : Decidable d.valid := by
  unfold Date.valid; infer_instance

/-- Python's `date` ordering: lexicographic on (year, month, day). -/
def dateLt (a b : Date) : Prop :=
  a.year < b.year ∨
    (a.year = b.year ∧
      (a.month < b.month ∨ (a.month = b.month ∧ a.day < b.day)))

instance (a b : Date) : Decidable (dateLt a b) := by
  unfold dateLt; infer_instance

/-- Days in the months strictly before month `m` of year `y`. -/
def daysBeforeMonth (y : Nat) : Nat → Nat
  | 0 => 0
  | 1 => 0
  | (m + 2) => daysBeforeMonth y (m + 1) + daysInMonth y (m + 1)

/-- Number of leap years in 1..y. -/
def leapsBefore (y : Nat) : Nat := y / 4 - y / 100 + y / 400

/-- Rata-die style day number of a date; differences of `toRD` agree with
Python's `date.toordinal` differences, hence with `(a - b).days`. -/
def toRD (d : Date) : Nat :=
  365 * (d.year - 1) + leapsBefore (d.year - 1) +
    daysBeforeMonth d.year d.month + d.day

/-- Python's `date.replace(year=y)`: the same month/day in year `y`;
raises (here: `none`) when the resulting date is invalid (Feb 29 in a
non-leap year, or a year outside 1..9999). -/
def Date.replaceYear (d : Date) (y : Nat) : Option Date :=
  let d2 : Date := ⟨y, d.month, d.day⟩
  if d2.valid then some d2 else none

/-! Arithmetic facts about the date model. -/

theorem isLeap_iff (y : Nat) :
    isLeap y = true ↔ ((y % 4 = 0 ∧ ¬ y % 100 = 0) ∨ y % 400 = 0) := by
  simp [isLeap, Bool.or_eq_true, Bool.and_eq_true, beq_iff_eq, bne_iff_ne]

theorem leapsBefore_succ (k : Nat) :
    leapsBefore (k + 1) =
      leapsBefore k + (if isLeap (k + 1) then 1 else 0) := by
  have h := isLeap_iff (k + 1)
  unfold leapsBefore
  rcases hb : isLeap (k + 1) with _ | _ <;> simp [hb] at h ⊢ <;> omega

theorem yearStart_succ (k : Nat) :
    365 * (k + 1) + leapsBefore (k + 1) =
      (365 * k + leapsBefore k) + 365 + (if isLeap (k + 1) then 1 else 0) := by
  rw [leapsBefore_succ]; ring

theorem yearStart_mono {k k' : Nat} (h : k ≤ k') :
    365 * k + leapsBefore k ≤ 365 * k' + leapsBefore k' := by
  induction k' with
  | zero =>
    have hk : k = 0 := by omega
    subst hk; exact le_refl _
  | succ n ih =>
    rcases Nat.lt_or_ge k (n + 1) with hlt | hge
    · have := ih (by omega)
      have hs := yearStart_succ n
      omega
    · have hk : k = n + 1 := by omega
      subst hk; exact le_refl _

theorem daysBeforeMonth_succ (y m : Nat) (h : 1 ≤ m) :
    daysBeforeMonth y (m + 1) = daysBeforeMonth y m + daysInMonth y m := by
  match m, h with
  | (m + 1), _ => rfl

theorem daysInMonth_pos (y m : Nat) : 1 ≤ daysInMonth y m := by
  unfold daysInMonth
  split
  · split <;> omega
  · split <;> omega

theorem daysBeforeMonth_mono (y : Nat) {m m' : Nat} (h : m ≤ m') :
    daysBeforeMonth y m ≤ daysBeforeMonth y m' := by
  induction m' with
  | zero =>
    have hm : m = 0 := by omega
    subst hm; exact le_refl _
  | succ n ih =>
    rcases Nat.lt_or_ge m (n + 1) with hlt | hge
    · have h1 := ih (by omega)
      have h2 : daysBeforeMonth y n ≤ daysBeforeMonth y (n + 1) := by
        match n with
        | 0 => simp [daysBeforeMonth]
        | (k + 1) => rw [daysBeforeMonth_succ y (k + 1) (by omega)]; omega
      omega
    · have hm : m = n + 1 := by omega
      subst hm; exact le_refl _

theorem daysBeforeMonth_thirteen (y : Nat) :
    daysBeforeMonth y 13 = 365 + (if isLeap y then 1 else 0) := by
  rcases hb : isLeap y with _ | _ <;>
    simp [daysBeforeMonth, daysInMonth, hb]

/-- Within a valid month, the in-year day count is at most the year length. -/
theorem inYear_le (y m d : Nat) (hm1 : 1 ≤ m) (hm12 : m ≤ 12)
    (hd : d ≤ daysInMonth y m) :
    daysBeforeMonth y m + d ≤ 365 + (if isLeap y then 1 else 0) := by
  have h1 : daysBeforeMonth y m + d ≤ daysBeforeMonth y (m + 1) := by
    rw [daysBeforeMonth_succ y m hm1]; omega
  have h2 : daysBeforeMonth y (m + 1) ≤ daysBeforeMonth y 13 :=
    daysBeforeMonth_mono y (by omega)
  rw [daysBeforeMonth_thirteen] at h2
  omega

/-- Year-start day numbers satisfy the expected predecessor relation. -/
theorem yearStart_pred (y : Nat) (hy : 1 ≤ y) :
    365 * y + leapsBefore y =
      (365 * (y - 1) + leapsBefore (y - 1)) + 365 +
        (if isLeap y then 1 else 0) := by
  obtain ⟨k, rfl⟩ : ∃ k, y = k + 1 := ⟨y - 1, by omega⟩
  simpa using yearStart_succ k

/-- Lexicographic order on valid dates agrees with the day-number order. -/
theorem toRD_lt_toRD {a b : Date} (ha : a.valid) (hb : b.valid)
    (h : dateLt a b) : toRD a < toRD b := by
  obtain ⟨ay, am, ad⟩ := a
  obtain ⟨b1, b2, b3⟩ := b
  dsimp only [Date.valid] at ha hb
  obtain ⟨hay, _, ham1, ham12, had1, hadm⟩ := ha
  obtain ⟨hby, _, hbm1, hbm12, hbd1, hbdm⟩ := hb
  dsimp only [dateLt] at h
  dsimp only [toRD]
  rcases h with hy | ⟨hy, hm | ⟨hm, hd⟩⟩
  · -- strictly earlier year: finish the year then step across years
    have hA : daysBeforeMonth ay am + ad ≤
        365 + (if isLeap ay then 1 else 0) :=
      inYear_le ay am ad ham1 ham12 hadm
    have hstep : 365 * ay + leapsBefore ay =
        (365 * (ay - 1) + leapsBefore (ay - 1)) + 365 +
          (if isLeap ay then 1 else 0) :=
      yearStart_pred ay (by omega)
    have hmono : 365 * ay + leapsBefore ay ≤
        365 * (b1 - 1) + leapsBefore (b1 - 1) :=
      yearStart_mono (by omega)
    omega
  · -- same year, strictly earlier month
    subst hy
    have h1 : daysBeforeMonth ay am + ad ≤
        daysBeforeMonth ay (am + 1) := by
      rw [daysBeforeMonth_succ ay am ham1]; omega
    have h2 : daysBeforeMonth ay (am + 1) ≤ daysBeforeMonth ay b2 :=
      daysBeforeMonth_mono ay (by omega)
    omega
  · -- same year and month, strictly earlier day
    subst hy; subst hm
    omega

/-- Totality of the lexicographic date order. -/
theorem dateLt_trichotomy (a b : Date) : dateLt a b ∨ dateLt b a ∨ a = b := by
  cases a; cases b
  simp only [dateLt, Date.mk.injEq]
  omega

theorem toRD_le_toRD {a b : Date} (ha : a.valid) (hb : b.valid)
    (h : ¬ dateLt b a) : toRD a ≤ toRD b := by
  rcases dateLt_trichotomy a b with hlt | hlt | heq
  · exact Nat.le_of_lt (toRD_lt_toRD ha hb hlt)
  · exact absurd hlt h
  · rw [heq]

/-! CSV ingestion: the row/date parsing loop of `fetch_birthdays`
(src/main.py lines 36-95), embedded at the level of character lists so
that every operation is structurally recursive and executable. -/

/-- Python `str.split(sep)` for a one-character separator. -/
def splitOnChar (sep : Char) : List Char → List (List Char)
  | [] => [[]]
  | c :: rest =>
    let r := splitOnChar sep rest
    if c == sep then [] :: r
    else
      match r with
      | [] => [[c]]
      | g :: gs => (c :: g) :: gs

/-- Python `str.strip()`: drop leading and trailing whitespace. -/
def trimL (l : List Char) : List Char :=
  ((l.dropWhile Char.isWhitespace).reverse.dropWhile Char.isWhitespace).reverse

/-- Check that every character is a decimal digit. -/
def allDigits (l : List Char) : Bool := l.all Char.isDigit

/-- Numeric value of a digit string (most significant digit first). -/
def digitsToNat (l : List Char) : Nat :=
  l.foldl (fun n c => n * 10 + (c.toNat - 48)) 0

/-- Python `int(s)`: strip whitespace, optional sign, then decimal digits;
`none` models the `ValueError` raised on any other input. -/
def pyIntL (l : List Char) : Option Int :=
  match trimL l with
  | '-' :: ds =>
    if !ds.isEmpty && allDigits ds then some (-(digitsToNat ds : Int)) else none
  | '+' :: ds =>
    if !ds.isEmpty && allDigits ds then some ((digitsToNat ds : Int)) else none
  | ds =>
    if !ds.isEmpty && allDigits ds then some ((digitsToNat ds : Int)) else none

/-- Python `datetime(y, m, d).date()`: `none` models the `ValueError`
raised when the components do not form a valid calendar date. -/
def mkDate (y m d : Int) : Option Date :=
  if 1 ≤ y ∧ y ≤ 9999 ∧ 1 ≤ m ∧ m ≤ 12 ∧ 1 ≤ d ∧
      d ≤ (daysInMonth y.toNat m.toNat : Int) then
    some ⟨y.toNat, m.toNat, d.toNat⟩
  else none

/-- Python `datetime.fromisoformat` on a 10-character string: strict
`YYYY-MM-DD`. -/
def parseISOL (l : List Char) : Option Date :=
  match splitOnChar '-' l with
  | [ys, ms, ds] =>
    if ys.length == 4 && ms.length == 2 && ds.length == 2 &&
        allDigits ys && allDigits ms && allDigits ds then
      mkDate (digitsToNat ys) (digitsToNat ms) (digitsToNat ds)
    else none
  | _ => none

/-- Two-digit year pivot of `fetch_birthdays`:
`year = f"19{year}" if int(year) > 50 else f"20{year}"`. -/
def pivot2 (yl : List Char) : Option (List Char) :=
  (pyIntL yl).map (fun y =>
    if y > 50 then '1' :: '9' :: yl else '2' :: '0' :: yl)

/-- Day-first numeric date from split parts:
`datetime(int(year), int(month), int(day))` after the two-digit pivot. -/
def parseDMYL (dayL monthL yearL : List Char) : Option Date := do
  let yearL2 ← if yearL.length == 2 then pivot2 yearL else pure yearL
  let y ← pyIntL yearL2
  let m ← pyIntL monthL
  let d ← pyIntL dayL
  mkDate y m d

/-- Date-string parsing of `fetch_birthdays` (src/main.py lines 54-87):
strip; ISO if it contains a dash and has length 10; else `DD.MM.YYYY`
(with two-digit pivot) if it contains a dot; else `DD/MM/YYYY` likewise;
else the row is skipped (`none`). -/
def parseBirthday (s : String) : Option Date :=
  let l := trimL s.data
  if l.contains '-' && l.length == 10 then parseISOL l
  else if l.contains '.' then
    match splitOnChar '.' l with
    | [d, m, y] => parseDMYL d m y
    | _ => none
  else if l.contains '/' then
    match splitOnChar '/' l with
    | [d, m, y] => parseDMYL d m y
    | _ => none
  else none

/-- CSV row: association list from column name to cell value, the shallow
model of a `csv.DictReader` row. -/
abbrev Row := List (String × String)

/-- Name-column aliases tried in order (src/main.py lines 45-46). -/
def NAME_ALIASES : List String :=
  ["Ім\u0027я", "name", "Name", "ім\u0027я", "NAME", "Імя"]

/-- Birthday-column aliases tried in order (src/main.py lines 49-51). -/
def BDAY_ALIASES : List String :=
  ["Дата народження", "Birthday", "birthday", "дата народження",
   "BIRTHDAY", "Дата"]

/-- Python `row.get(a1) or row.get(a2) or ...`: first alias whose value is
present and truthy (a non-empty string) wins. -/
def getAlias (row : Row) : List String → Option String
  | [] => none
  | a :: rest =>
    match row.lookup a with
    | some v => if v ≠ "" then some v else getAlias row rest
    | none => getAlias row rest

/-- Body of the row loop of `fetch_birthdays`: a record is produced only
when both a name alias and a birthday alias resolve to truthy values and
the date string parses; otherwise the row is skipped (`none`). -/
def parseRow (row : Row) : Option (String × Date × Row) :=
  match getAlias row NAME_ALIASES, getAlias row BDAY_ALIASES with
  | some name, some bday =>
    match parseBirthday bday with
    | some d => some (name, d, row)
    | none => none
  | _, _ => none

/-- Parsing pass of `fetch_birthdays` over all CSV rows: rows that fail
to produce a record are dropped, the rest are kept in order. -/
def fetchBirthdaysRows (rows : List Row) : List (String × Date × Row) :=
  rows.filterMap parseRow

/-! Scheduler: next-occurrence and delta computation (src/main.py lines
366-372 and 247-252), age and milestones, notification selection
(lines 375-401), and the message flow of `main` (lines 340-352). -/

/-- Next-occurrence computation of `main` and `send_all_birthdays_list`:
`next_bday = bday.replace(year=today.year)`; if that is strictly before
`today`, `bday.replace(year=today.year + 1)`.  `none` models the
uncaught `ValueError` a Feb 29 birth date raises in a non-leap year. -/
def nextOccurrence (bday today : Date) : Option Date :=
  match bday.replaceYear today.year with
  | none => none
  | some nb =>
    if dateLt nb today then bday.replaceYear (today.year + 1) else some nb

/-- Python `(next_bday - today).days`: difference in whole days. -/
def deltaDays (nd today : Date) : Int :=
  (toRD nd : Int) - (toRD today : Int)

/-- Source `calculate_age` (src/main.py lines 97-99): target year minus
birth year, minus one when target's (month, day) is lexicographically
before the birth date's. -/
def calculate_age (birthdate target : Date) : Int :=
  (target.year : Int) - (birthdate.year : Int) -
    (if target.month < birthdate.month ∨
        (target.month = birthdate.month ∧ target.day < birthdate.day)
      then 1 else 0)

/-- Source `milestone_ages` list (src/main.py line 103). -/
def milestone_ages : List Int :=
  [18, 20, 25, 30, 35, 40, 45, 50, 55, 60, 65, 70, 75, 80, 85, 90, 95, 100]

/-- Source `is_milestone_age` (src/main.py lines 101-104). -/
def is_milestone_age (age : Int) : Bool := milestone_ages.contains age

/-- Kind of per-record notification, by the branch of the reminder loop
that sends it: `delta in (7, 1)` or `delta == 0`. -/
inductive NotificationKind where
  | SevenDay
  | OneDay
  | Today
deriving DecidableEq, Repr

/-- Which notification (if any) a given delta triggers. -/
def notifKind (d : Int) : Option NotificationKind :=
  if d = 7 then some NotificationKind.SevenDay
  else if d = 1 then some NotificationKind.OneDay
  else if d = 0 then some NotificationKind.Today
  else none

/-- Reminder loop of `main` (src/main.py lines 365-401): for each record
in order, compute the next occurrence and delta; send a reminder when
`delta in (7, 1)`, a greeting when `delta == 0`, nothing otherwise.
`none` models an uncaught date-construction error aborting the run. -/
def selectNotifications (today : Date) :
    List (String × Date × Row) → Option (List (String × NotificationKind))
  | [] => some []
  | (name, bday, _) :: rest => do
    let nd ← nextOccurrence bday today
    let d := deltaDays nd today
    let tail ← selectNotifications today rest
    if d = 7 ∨ d = 1 then
      pure ((name, if d = 7 then NotificationKind.SevenDay
                   else NotificationKind.OneDay) :: tail)
    else if d = 0 then
      pure ((name, NotificationKind.Today) :: tail)
    else
      pure tail

/-- Outbound message of the daily run, abstracted to its kind. -/
inductive OutMsg where
  | noData
  | reminder (name : String) (kind : NotificationKind)
  | control
deriving DecidableEq, Repr

/-- Daily message flow of `main` (src/main.py lines 340-412), as a
function of the fetch outcome: a raised fetch error (`none`) is caught
and the run returns with no message sent; a successful fetch with zero
valid records sends exactly the no-data error message; otherwise the
reminder loop runs and a control message is appended. -/
def mainDaily (fetched : Option (List (String × Date × Row)))
    (today : Date) : Option (List OutMsg) :=
  match fetched with
  | none => some []
  | some [] => some [OutMsg.noData]
  | some recs =>
    (selectNotifications today recs).map
      (fun ns => ns.map (fun nk => OutMsg.reminder nk.1 nk.2) ++
        [OutMsg.control])

/-! Rendering: `format_person_info` (src/main.py lines 106-147), the
reminder and greeting messages (lines 375-399), and the digest lines of
`send_all_birthdays_list` (lines 245-268). -/

/-- Python `"\n".join(lines)`. -/
def joinNL : List String → String
  | [] => ""
  | [s] => s
  | s :: rest => s ++ "\n" ++ joinNL rest

/-- Hay starts with needle (Python `str.startswith`). -/
def startsWithL : List Char → List Char → Bool
  | _, [] => true
  | [], _ :: _ => false
  | c :: l, p :: ps => c == p && startsWithL l ps

/-- Two-digit zero-padded decimal (strftime `%d` / `%m`). -/
def pad2 (n : Nat) : String :=
  if n < 10 then "0" ++ toString n else toString n

/-- Four-digit zero-padded decimal (strftime `%Y` for years up to 9999). -/
def pad4 (n : Nat) : String :=
  if n < 10 then "000" ++ toString n
  else if n < 100 then "00" ++ toString n
  else if n < 1000 then "0" ++ toString n
  else toString n

/-- Python `f"{d:%Y-%m-%d}"`. -/
def formatYMD (d : Date) : String :=
  pad4 d.year ++ "-" ++ pad2 d.month ++ "-" ++ pad2 d.day

/-- Python `f"{d:%d.%m}"`. -/
def formatDM (d : Date) : String :=
  pad2 d.day ++ "." ++ pad2 d.month

/-- Source `phone_fields` (src/main.py line 111). -/
def phone_fields : List String :=
  ["Телефон", "телефон", "Phone", "phone", "Номер телефону",
   "номер телефону"]

/-- Source `telegram_fields` (src/main.py line 119). -/
def telegram_fields : List String :=
  ["Telegram", "telegram", "TG", "tg", "Телеграм", "телеграм",
   "Telegram ID", "telegram id"]

/-- Side-channel field loop of `format_person_info`: first field whose
value is truthy with a truthy `strip()`; yields the stripped value. -/
def getField (row : Row) : List String → Option (List Char)
  | [] => none
  | f :: rest =>
    match row.lookup f with
    | some v =>
      if v ≠ "" ∧ trimL v.data ≠ [] then some (trimL v.data)
      else getField row rest
    | none => getField row rest

/-- Phone normalization of `format_person_info` (src/main.py lines
127-136): strip spaces, dashes and parentheses, then prefix `+` or
`+380` for local-format numbers. -/
def cleanPhone (p : List Char) : List Char :=
  let c := p.filter (fun ch => ch ≠ ' ' ∧ ch ≠ '-' ∧ ch ≠ '(' ∧ ch ≠ ')')
  if startsWithL c "380".data ∧ ¬ startsWithL c "+".data then '+' :: c
  else if ¬ startsWithL c "+".data ∧ c.length = 9 then "+380".data ++ c
  else c

/-- Source `format_person_info` (src/main.py lines 106-147). -/
def format_person_info (name : String) (row : Row) : String :=
  let base := ["👤 " ++ name]
  let withPhone :=
    match getField row phone_fields with
    | some p => base ++ ["📞 Phone: " ++ String.mk (cleanPhone p)]
    | none => base
  let withTg :=
    match getField row telegram_fields with
    | some t =>
      withPhone ++ ["💬 Telegram: " ++
        String.mk (if startsWithL t ['@'] then t else '@' :: t)]
    | none => withPhone
  joinNL withTg

/-- Milestone suffix of the 7/1-day reminder message (lines 381-383). -/
def milestoneTextReminder (age : Int) : String :=
  if is_milestone_age age then
    "\n🎊 MILESTONE BIRTHDAY! Turning " ++ toString age ++ "! 🎊"
  else ""

/-- Milestone suffix of the same-day greeting message (lines 393-396). -/
def milestoneTextToday (age : Int) : String :=
  if is_milestone_age age then
    "\n🎊 MILESTONE BIRTHDAY! They\u0027re turning " ++ toString age ++
      " today! 🎊"
  else ""

/-- Reminder message for `delta in (7, 1)` (src/main.py line 385). -/
def reminderMessage (name : String) (row : Row) (delta : Int)
    (nextBday : Date) (age : Int) : String :=
  let daysText := if delta = 7 then "days" else "day"
  "❗ Birthday Reminder (" ++ toString delta ++ " " ++ daysText ++
    " left)\n\n" ++ format_person_info name row ++ "\n\n❗ Birthday: " ++
    formatYMD nextBday ++ milestoneTextReminder age

/-- Same-day greeting message for `delta == 0` (src/main.py line 398). -/
def todayMessage (name : String) (row : Row) (age : Int) : String :=
  "🟢 Happy Birthday! 🟢\n\n" ++ format_person_info name row ++
    "\n\n🛑 Don`t forget to greet!" ++ milestoneTextToday age

/-! Digest: `send_all_birthdays_list` (src/main.py lines 239-293). -/

/-- Digest line of `send_all_birthdays_list` (src/main.py line 257). -/
def digestLine (name : String) (nextBday : Date) (delta : Int)
    (age : Int) : String :=
  "• " ++ name ++ ": " ++ formatDM nextBday ++ " (" ++ toString delta ++
    " days)" ++ (if is_milestone_age age then " 🎊" else "")

/-- Loop building `birthday_info` (src/main.py lines 246-257): for every
record a (delta, rendered line) pair, in input order. -/
def buildBirthdayInfo (today : Date) :
    List (String × Date × Row) → Option (List (Int × String))
  | [] => some []
  | (name, bday, _) :: rest => do
    let nb ← nextOccurrence bday today
    let delta := deltaDays nb today
    let age := calculate_age bday nb
    let tail ← buildBirthdayInfo today rest
    pure ((delta, digestLine name nb delta age) :: tail)

/-- Python `birthday_info.sort(key=lambda x: x[0])`: a stable sort on the
delta component, modelled by insertion sort (which is stable). -/
def sortByDelta (info : List (Int × String)) : List (Int × String) :=
  List.insertionSort (fun a b => a.1 ≤ b.1) info

/-- Chunk header (src/main.py lines 273 and 283). -/
def partHeader (n : Nat) : String :=
  "📋 All Birthdays List (Part " ++ toString n ++ ")\n"

/-- Chunking loop of `send_all_birthdays_list` (src/main.py lines
277-291): returns the chunks (header first, then lines) in send order;
the final chunk is sent only when it holds more than the header. -/
def chunkLoop : List String → List String → Nat → Nat → List (List String)
  | [], chunk, _, _ => if 1 < chunk.length then [chunk] else []
  | line :: rest, chunk, curLen, part =>
    if 3500 < curLen + line.length + 1 then
      chunk :: chunkLoop rest [partHeader (part + 1), line]
        ((partHeader (part + 1)).length + line.length + 1) (part + 1)
    else
      chunkLoop rest (chunk ++ [line]) (curLen + line.length + 1) part

/-- Chunk splitting entry point (src/main.py lines 272-275). -/
def digestChunks (lines : List String) : List (List String) :=
  chunkLoop lines [partHeader 1] (partHeader 1).length 1

/-- Messages sent by `send_all_birthdays_list`: the no-data text for an
empty record list, one message when the digest fits in 3500 characters,
and the joined chunks otherwise. -/
def sendAllBirthdaysList (recs : List (String × Date × Row))
    (today : Date) : Option (List String) :=
  match recs with
  | [] => some ["📋 Birthday List\n\nNo birthdays found in database."]
  | _ =>
    (buildBirthdayInfo today recs).map (fun info =>
      let sorted := sortByDelta info
      let message := joinNL ("📋 All Birthdays List\n" :: sorted.map Prod.snd)
      if 3500 < message.length then
        (digestChunks (sorted.map Prod.snd)).map joinNL
      else [message])

/-! Substring machinery for stating "the rendered text includes ...". -/

/-- Needle occurs as a contiguous substring of the haystack. -/
def hasSubL (needle : List Char) : List Char → Bool
  | [] => needle.isEmpty
  | c :: rest => startsWithL (c :: rest) needle || hasSubL needle rest

/-- The rendered string contains the given fragment contiguously. -/
def strIncludes (hay needle : String) : Prop :=
  ∃ l1 l2, hay.data = l1 ++ needle.data ++ l2

theorem startsWithL_iff (hay pre : List Char) :
    startsWithL hay pre = true ↔ ∃ tail, hay = pre ++ tail := by
  induction pre generalizing hay with
  | nil => simp [startsWithL]
  | cons p ps ih =>
    cases hay with
    | nil => simp [startsWithL]
    | cons c l =>
      simp only [startsWithL, Bool.and_eq_true, beq_iff_eq, ih,
        List.cons_append]
      constructor
      · rintro ⟨rfl, tail, rfl⟩
        exact ⟨tail, rfl⟩
      · rintro ⟨tail, heq⟩
        injection heq with h1 h2
        exact ⟨h1, tail, h2⟩

theorem hasSubL_iff (needle hay : List Char) :
    hasSubL needle hay = true ↔ ∃ l1 l2, hay = l1 ++ needle ++ l2 := by
  induction hay with
  | nil =>
    simp only [hasSubL, List.isEmpty_iff]
    constructor
    · rintro rfl
      exact ⟨[], [], rfl⟩
    · rintro ⟨l1, l2, h⟩
      have := h.symm
      simp only [List.append_eq_nil] at this
      exact this.1.2
  | cons c rest ih =>
    simp only [hasSubL, Bool.or_eq_true, startsWithL_iff, ih]
    constructor
    · rintro (⟨t, ht⟩ | ⟨l1, l2, h⟩)
      · exact ⟨[], t, by simpa using ht⟩
      · exact ⟨c :: l1, l2, by simp [h]⟩
    · rintro ⟨l1, l2, h⟩
      cases l1 with
      | nil =>
        left
        exact ⟨l2, by simpa using h⟩
      | cons x xs =>
        right
        injection h with h1 h2
        exact ⟨xs, l2, h2⟩

theorem strIncludes_iff (hay needle : String) :
    strIncludes hay needle ↔ hasSubL needle.data hay.data = true := by
  rw [hasSubL_iff]
  exact Iff.rfl

/-! Claim theorems. -/

theorem replaceYear_spec {d : Date} {y : Nat} {r : Date}
    (h : d.replaceYear y = some r) :
    r = ⟨y, d.month, d.day⟩ ∧ r.valid := by
  simp only [Date.replaceYear] at h
  split at h
  · next hv =>
    have heq := Option.some.inj h
    exact ⟨heq.symm, heq ▸ hv⟩
  · cases h

/-- C1: for every record and every valid `today`, whenever the
next-occurrence computation of `main` succeeds it returns the record's
birth month/day placed in `today`'s year, advanced by one year exactly
when that date is strictly before `today`; consequently `next_date` is
not before `today`, its month/day equal the birth date's month/day, and
`delta_days = next_date - today` is a non-negative whole number of
days. -/
theorem claim_C1 (bday today nd : Date) (htoday : today.valid)
    (h : nextOccurrence bday today = some nd) :
    nd.month = bday.month ∧ nd.day = bday.day ∧
    (dateLt ⟨today.year, bday.month, bday.day⟩ today →
      nd.year = today.year + 1) ∧
    (¬ dateLt ⟨today.year, bday.month, bday.day⟩ today →
      nd.year = today.year) ∧
    ¬ dateLt nd today ∧ 0 ≤ deltaDays nd today := by
  unfold nextOccurrence at h
  cases hrep : bday.replaceYear today.year with
  | none => rw [hrep] at h; cases h
  | some nb =>
    rw [hrep] at h
    obtain ⟨hnb, hnbv⟩ := replaceYear_spec hrep
    subst hnb
    dsimp only at h
    by_cases hlt : dateLt ⟨today.year, bday.month, bday.day⟩ today
    · rw [if_pos hlt] at h
      obtain ⟨hnd, hndv⟩ := replaceYear_spec h
      subst hnd
      have hge : ¬ dateLt (⟨today.year + 1, bday.month, bday.day⟩ : Date)
          today := by
        intro hc
        rcases hc with hc | ⟨hc, _⟩ <;> simp at hc
      refine ⟨rfl, rfl, fun _ => rfl, fun hc => absurd hlt hc, hge, ?_⟩
      have hle := toRD_le_toRD htoday hndv hge
      unfold deltaDays
      omega
    · rw [if_neg hlt] at h
      have heq := Option.some.inj h
      subst heq
      refine ⟨rfl, rfl, fun hc => absurd hc hlt, fun _ => rfl, hlt, ?_⟩
      have hle := toRD_le_toRD htoday hnbv hlt
      unfold deltaDays
      omega

/-- Witness for C1 at the spec's own example: today 2024-03-10 and a
record born 2000-03-17, whose next occurrence is 2024-03-17. -/
theorem claim_C1_witness :
    Date.valid ⟨2024, 3, 10⟩ ∧
    nextOccurrence ⟨2000, 3, 17⟩ ⟨2024, 3, 10⟩ = some ⟨2024, 3, 17⟩ ∧
    ¬ dateLt ⟨2024, 3, 17⟩ ⟨2024, 3, 10⟩ ∧
    0 ≤ deltaDays ⟨2024, 3, 17⟩ ⟨2024, 3, 10⟩ :=
  ⟨by decide, by decide,
   (claim_C1 ⟨2000, 3, 17⟩ ⟨2024, 3, 10⟩ ⟨2024, 3, 17⟩ (by decide)
      (by decide)).2.2.2.2.1,
   (claim_C1 ⟨2000, 3, 17⟩ ⟨2024, 3, 10⟩ ⟨2024, 3, 17⟩ (by decide)
      (by decide)).2.2.2.2.2⟩

/-- C2: whenever the reminder loop of `main` completes, it emits exactly
one notification per record whose delta is 7, 1 or 0 (of kind SevenDay,
OneDay, Today respectively), none for any other record, and in the input
order of the records: the emitted list is precisely the in-order
`filterMap` of the per-record notification kind. -/
theorem claim_C2 (today : Date) (recs : List (String × Date × Row))
    (ns : List (String × NotificationKind))
    (h : selectNotifications today recs = some ns) :
    ns = recs.filterMap (fun r =>
      (nextOccurrence r.2.1 today).bind (fun nd =>
        (notifKind (deltaDays nd today)).map (fun k => (r.1, k)))) := by
  induction recs generalizing ns with
  | nil =>
    have := Option.some.inj h
    simp [this.symm]
  | cons r rest ih =>
    obtain ⟨name, bday, row⟩ := r
    simp only [selectNotifications, bind, Option.bind] at h
    cases hnd : nextOccurrence bday today with
    | none => rw [hnd] at h; cases h
    | some nd =>
      rw [hnd] at h
      dsimp only at h
      cases htail : selectNotifications today rest with
      | none => rw [htail] at h; cases h
      | some tail =>
        rw [htail] at h
        dsimp only at h
        have ht := ih tail htail
        rw [List.filterMap_cons]
        dsimp only
        rw [hnd]
        dsimp only [Option.bind]
        by_cases h7 : deltaDays nd today = 7
        · rw [if_pos (Or.inl h7)] at h
          have hns := (Option.some.inj h).symm
          have hk : notifKind (deltaDays nd today) =
              some NotificationKind.SevenDay := by simp [notifKind, h7]
          rw [hk]
          dsimp only [Option.map_some']
          rw [hns, if_pos h7, ht]
          rfl
        · by_cases h1 : deltaDays nd today = 1
          · rw [if_pos (Or.inr h1)] at h
            have hns := (Option.some.inj h).symm
            have hk : notifKind (deltaDays nd today) =
                some NotificationKind.OneDay := by simp [notifKind, h1, h7]
            rw [hk]
            dsimp only [Option.map_some']
            rw [hns, if_neg h7, ht]
            rfl
          · rw [if_neg (by tauto)] at h
            by_cases h0 : deltaDays nd today = 0
            · rw [if_pos h0] at h
              have hns := (Option.some.inj h).symm
              have hk : notifKind (deltaDays nd today) =
                  some NotificationKind.Today := by
                simp [notifKind, h0, h7, h1]
              rw [hk]
              dsimp only [Option.map_some']
              rw [hns, ht]
              rfl
            · rw [if_neg h0] at h
              have hns := (Option.some.inj h).symm
              have hk : notifKind (deltaDays nd today) = none := by
                simp [notifKind, h0, h7, h1]
              rw [hk]
              dsimp only [Option.map_none']
              rw [hns, ht]
              rfl

/-- Witness for C2: three records at deltas 7, 1 and 0 and one at delta
5, against today 2024-03-10, yield exactly the three notifications in
input order. -/
theorem claim_C2_witness :
    selectNotifications ⟨2024, 3, 10⟩
        [("Alice", ⟨2000, 3, 17⟩, []), ("Bob", ⟨1990, 3, 11⟩, []),
         ("Carol", ⟨1995, 3, 10⟩, []), ("Dave", ⟨1974, 3, 15⟩, [])] =
      some [("Alice", NotificationKind.SevenDay),
        ("Bob", NotificationKind.OneDay),
        ("Carol", NotificationKind.Today)] ∧
    [("Alice", NotificationKind.SevenDay), ("Bob", NotificationKind.OneDay),
        ("Carol", NotificationKind.Today)] =
      ([("Alice", ⟨2000, 3, 17⟩, []), ("Bob", ⟨1990, 3, 11⟩, []),
         ("Carol", ⟨1995, 3, 10⟩, []),
         ("Dave", ⟨1974, 3, 15⟩, [])] :
          List (String × Date × Row)).filterMap (fun r =>
        (nextOccurrence r.2.1 ⟨2024, 3, 10⟩).bind (fun nd =>
          (notifKind (deltaDays nd ⟨2024, 3, 10⟩)).map (fun k =>
            (r.1, k)))) :=
  ⟨by decide, claim_C2 ⟨2024, 3, 10⟩ _ _ (by decide)⟩

/-- C3 (counterexample): when the fetch raises, the daily run of `main`
catches the error and returns having sent zero messages, not the one
no-data notification the claim requires. -/
theorem claim_C3_counterexample :
    mainDaily none ⟨2024, 3, 10⟩ = some [] ∧
    mainDaily none ⟨2024, 3, 10⟩ ≠ some [OutMsg.noData] := by
  exact ⟨rfl, by decide⟩

/-- C3 (amended): when the CSV fetch raises (there are no retries in the
code), `main` catches the error and returns without sending anything;
the single no-data notification is sent exactly when the fetch succeeds
but yields zero valid records. -/
theorem claim_C3_amended (today : Date) :
    mainDaily none today = some [] ∧
    mainDaily (some []) today = some [OutMsg.noData] :=
  ⟨rfl, rfl⟩

/-- C4 (counterexample): the two-digit year 50 is not greater than 50,
so the pivot maps `"17.03.50"` to the year 2050, not 1950 as claimed. -/
theorem claim_C4_counterexample :
    parseBirthday "17.03.50" = some ⟨2050, 3, 17⟩ ∧ (2050 : Nat) ≠ 1950 :=
  ⟨by decide, by decide⟩

/-- Two-digit decimal rendering of a value below 100. -/
def twoDigits (y : Nat) : String :=
  ⟨[Nat.digitChar (y / 10), Nat.digitChar (y % 10)]⟩

/-- C4 (amended): the pivot maps two-digit years strictly greater than
50 to the 1900s and years up to and including 50 to the 2000s (so the
two-digit year 50 is interpreted as 2050). -/
theorem claim_C4_amended :
    ∀ y : Nat, y < 100 →
      parseBirthday ("01.01." ++ twoDigits y) =
        some ⟨if 50 < y then 1900 + y else 2000 + y, 1, 1⟩ := by
  decide

/-- Witness for the amended C4 at the two-digit year 63. -/
theorem claim_C4_amended_witness :
    (63 : Nat) < 100 ∧
    parseBirthday ("01.01." ++ twoDigits 63) = some ⟨1963, 1, 1⟩ :=
  ⟨by decide, by simpa using claim_C4_amended 63 (by decide)⟩

/-- C5 (counterexample): the date string "17 March 2000" matches no
explicit format and there is no fuzzy fallback in the code, so the row
yields no record. -/
theorem claim_C5_counterexample :
    parseBirthday "17 March 2000" = none ∧
    parseRow [("Name", "Dana"), ("Birthday", "17 March 2000")] = none :=
  ⟨by decide, by decide⟩

/-- C5 (amended): a date string containing none of the separator
characters of the explicit formats is rejected outright — the parser has
no fuzzy fallback. -/
theorem claim_C5_amended (s : String)
    (h1 : (trimL s.data).contains '-' = false)
    (h2 : (trimL s.data).contains '.' = false)
    (h3 : (trimL s.data).contains '/' = false) :
    parseBirthday s = none := by
  have h1' : ¬ ('-' ∈ trimL s.data) := by simpa using h1
  have h2' : ¬ ('.' ∈ trimL s.data) := by simpa using h2
  have h3' : ¬ ('/' ∈ trimL s.data) := by simpa using h3
  unfold parseBirthday
  simp [h1', h2', h3']

/-- Witness for the amended C5 at the claim's own example string. -/
theorem claim_C5_amended_witness :
    ((trimL "17 March 2000".data).contains '-' = false ∧
     (trimL "17 March 2000".data).contains '.' = false ∧
     (trimL "17 March 2000".data).contains '/' = false) ∧
    parseBirthday "17 March 2000" = none :=
  ⟨⟨by decide, by decide, by decide⟩,
   claim_C5_amended "17 March 2000" (by decide) (by decide) (by decide)⟩

/-- C6 (counterexample): the column lookup is an exact-string alias
chain, not case-insensitive: the header "BiRtHdAy" resolves to nothing,
while the listed casing "Birthday" does. -/
theorem claim_C6_counterexample :
    parseRow [("Name", "Alice"), ("BiRtHdAy", "17.03.2000")] = none ∧
    parseRow [("Name", "Alice"), ("Birthday", "17.03.2000")] =
      some ("Alice", ⟨2000, 3, 17⟩,
        [("Name", "Alice"), ("Birthday", "17.03.2000")]) :=
  ⟨by decide, by decide⟩

/-- C6 (amended): aliases are matched case-sensitively against the fixed
lists, the first alias resolving to a non-empty value wins, and a row in
which the name or the date alias chain resolves to nothing is silently
skipped — dropped from the batch without an error. -/
theorem claim_C6_amended (row : Row) (rest : List Row) :
    (∀ (a v : String) (aliases : List String),
      row.lookup a = some v → v ≠ "" →
      getAlias row (a :: aliases) = some v) ∧
    ((getAlias row NAME_ALIASES = none ∨ getAlias row BDAY_ALIASES = none) →
      parseRow row = none ∧
      fetchBirthdaysRows (row :: rest) = fetchBirthdaysRows rest) := by
  constructor
  · intro a v aliases hv hne
    simp [getAlias, hv, hne]
  · intro hmiss
    have hrow : parseRow row = none := by
      unfold parseRow
      cases hn : getAlias row NAME_ALIASES with
      | none => rfl
      | some n =>
        cases hb : getAlias row BDAY_ALIASES with
        | none => rfl
        | some b =>
          rw [hn, hb] at hmiss
          rcases hmiss with hm | hm <;> cases hm
    refine ⟨hrow, ?_⟩
    simp [fetchBirthdaysRows, List.filterMap_cons, hrow]

/-- Witness for the amended C6: a row with a name but no birthday column
resolves the name alias yet is skipped. -/
theorem claim_C6_amended_witness :
    getAlias [("Name", "Alice")] ["Name"] = some "Alice" ∧
    parseRow [("Name", "Alice")] = none ∧
    fetchBirthdaysRows [[("Name", "Alice")]] = fetchBirthdaysRows [] := by
  have h := claim_C6_amended [("Name", "Alice")] []
  exact ⟨h.1 "Name" "Alice" [] (by decide) (by decide),
         (h.2 (Or.inr (by decide))).1, (h.2 (Or.inr (by decide))).2⟩

/-- C7: a row whose date string is the invalid calendar date
"31.02.2000" parses to nothing, and dropping any unparsable row never
aborts the batch: the parse returns exactly the records of the remaining
rows. -/
theorem claim_C7 (rows1 rows2 : List Row) (row : Row)
    (h : parseRow row = none) :
    parseBirthday "31.02.2000" = none ∧
    fetchBirthdaysRows (rows1 ++ row :: rows2) =
      fetchBirthdaysRows rows1 ++ fetchBirthdaysRows rows2 := by
  refine ⟨by decide, ?_⟩
  simp [fetchBirthdaysRows, List.filterMap_append, List.filterMap_cons, h]

/-- Witness for C7: a concrete batch where the middle row carries the
invalid date "31.02.2000" and the outer rows survive. -/
theorem claim_C7_witness :
    parseRow [("Name", "Eva"), ("Birthday", "31.02.2000")] = none ∧
    (parseBirthday "31.02.2000" = none ∧
      fetchBirthdaysRows
          ([[("Name", "Ann"), ("Birthday", "17.03.2000")]] ++
            [("Name", "Eva"), ("Birthday", "31.02.2000")] ::
            [[("Name", "Ben"), ("Birthday", "01.01.1999")]]) =
        fetchBirthdaysRows [[("Name", "Ann"), ("Birthday", "17.03.2000")]] ++
          fetchBirthdaysRows [[("Name", "Ben"), ("Birthday", "01.01.1999")]]) :=
  ⟨by decide, claim_C7 _ _ _ (by decide)⟩

/-! Stability of the digest sort and the chunk-splitting round trip. -/

instance : IsTotal (Int × String) (fun a b => a.1 ≤ b.1) :=
  ⟨fun a b => le_total a.1 b.1⟩

instance : IsTrans (Int × String) (fun a b => a.1 ≤ b.1) :=
  ⟨fun _ _ _ h1 h2 => le_trans h1 h2⟩

theorem filter_orderedInsert_pos (d : Int) (a : Int × String)
    (l : List (Int × String)) (ha : a.1 = d) :
    (List.orderedInsert (fun x y => x.1 ≤ y.1) a l).filter
        (fun x => x.1 == d) =
      a :: l.filter (fun x => x.1 == d) := by
  induction l with
  | nil => simp [List.orderedInsert, List.filter, ha]
  | cons b bl ih =>
    rw [List.orderedInsert]
    by_cases hab : a.1 ≤ b.1
    · rw [if_pos hab]
      simp [List.filter_cons, ha]
    · rw [if_neg hab]
      have hlt : b.1 < a.1 := lt_of_not_le hab
      have hbd : (b.1 == d) = false := by
        simp only [beq_eq_false_iff_ne]
        omega
      simp [List.filter_cons, hbd, ih]

theorem filter_orderedInsert_neg (d : Int) (a : Int × String)
    (l : List (Int × String)) (ha : ¬ a.1 = d) :
    (List.orderedInsert (fun x y => x.1 ≤ y.1) a l).filter
        (fun x => x.1 == d) =
      l.filter (fun x => x.1 == d) := by
  have haf : (a.1 == d) = false := by
    simp only [beq_eq_false_iff_ne]
    exact ha
  induction l with
  | nil => simp [List.orderedInsert, List.filter, haf]
  | cons b bl ih =>
    rw [List.orderedInsert]
    by_cases hab : a.1 ≤ b.1
    · rw [if_pos hab]
      simp [List.filter_cons, haf]
    · rw [if_neg hab]
      simp [List.filter_cons, ih]

theorem filter_insertionSort (d : Int) (l : List (Int × String)) :
    (List.insertionSort (fun x y => x.1 ≤ y.1) l).filter
        (fun x => x.1 == d) =
      l.filter (fun x => x.1 == d) := by
  induction l with
  | nil => rfl
  | cons a l ih =>
    rw [List.insertionSort]
    by_cases ha : a.1 = d
    · rw [filter_orderedInsert_pos d a _ ha, ih]
      have hat : (a.1 == d) = true := by simpa using ha
      simp [List.filter_cons, hat]
    · rw [filter_orderedInsert_neg d a _ ha, ih]
      have haf : (a.1 == d) = false := by simpa using ha
      simp [List.filter_cons, haf]

theorem chunkLoop_bodies (lines : List String) :
    ∀ (h : String) (acc : List String) (curLen part : Nat),
      ((chunkLoop lines (h :: acc) curLen part).map
        (fun c => c.drop 1)).flatten = acc ++ lines := by
  induction lines with
  | nil =>
    intro h acc curLen part
    rw [chunkLoop]
    by_cases hlen : 1 < (h :: acc).length
    · rw [if_pos hlen]
      simp
    · rw [if_neg hlen]
      have hacc : acc = [] := by
        cases acc with
        | nil => rfl
        | cons x xs =>
          exfalso
          apply hlen
          simp
      simp [hacc]
  | cons line rest ih =>
    intro h acc curLen part
    rw [chunkLoop]
    by_cases hover : 3500 < curLen + line.length + 1
    · rw [if_pos hover]
      simp only [List.map_cons, List.flatten_cons, List.drop_succ_cons,
        List.drop_zero]
      rw [ih]
      simp
    · rw [if_neg hover]
      have hres := ih h (acc ++ [line]) (curLen + line.length + 1) part
      rw [show (h :: acc) ++ [line] = h :: (acc ++ [line]) from rfl]
      rw [hres]
      simp

/-- C8: the digest sort lists all entries ordered ascending by delta,
tied entries keep their input order (stable sort: every equal-delta
fibre of the output equals that of the input), and the chunk bodies of
the split digest, concatenated in send order with the headers dropped,
reproduce the sorted lines exactly. -/
theorem claim_C8 (info : List (Int × String)) :
    (sortByDelta info).Perm info ∧
    List.Sorted (fun a b : Int × String => a.1 ≤ b.1) (sortByDelta info) ∧
    (∀ d : Int, (sortByDelta info).filter (fun x => x.1 == d) =
      info.filter (fun x => x.1 == d)) ∧
    ((digestChunks ((sortByDelta info).map Prod.snd)).map
      (fun c => c.drop 1)).flatten = (sortByDelta info).map Prod.snd := by
  refine ⟨List.perm_insertionSort _ info, List.sorted_insertionSort _ info,
    fun d => filter_insertionSort d info, ?_⟩
  unfold digestChunks
  simpa using chunkLoop_bodies ((sortByDelta info).map Prod.snd)
    (partHeader 1) [] (partHeader 1).length 1

/-! Length accounting of the chunking loop. -/

theorem joinNL_cons₂ (a b : String) (l : List String) :
    joinNL (a :: b :: l) = a ++ "\n" ++ joinNL (b :: l) := rfl

theorem joinNL_snoc (l : List String) (x : String) (h : l ≠ []) :
    joinNL (l ++ [x]) = joinNL l ++ "\n" ++ x := by
  induction l with
  | nil => cases h rfl
  | cons a l ih =>
    cases l with
    | nil => rfl
    | cons b bl =>
      have hstep := ih (by simp)
      calc joinNL ((a :: b :: bl) ++ [x])
          = a ++ "\n" ++ joinNL ((b :: bl) ++ [x]) := rfl
        _ = a ++ "\n" ++ (joinNL (b :: bl) ++ "\n" ++ x) := by rw [hstep]
        _ = joinNL (a :: b :: bl) ++ "\n" ++ x := by
            rw [joinNL_cons₂]
            rw [← String.append_assoc, ← String.append_assoc]

theorem chunkLoop_le (lines : List String) :
    ∀ (chunk : List String) (curLen part : Nat),
      chunk ≠ [] →
      curLen = (joinNL chunk).length →
      curLen ≤ 3500 →
      (∀ l ∈ lines, ∀ q : Nat, part < q → q ≤ part + lines.length →
        (partHeader q).length + l.length + 1 ≤ 3500) →
      ∀ c ∈ chunkLoop lines chunk curLen part,
        (joinNL c).length ≤ 3500 := by
  induction lines with
  | nil =>
    intro chunk curLen part hne hcur hle hlines c hc
    rw [chunkLoop] at hc
    split at hc
    · simp only [List.mem_singleton] at hc
      subst hc
      omega
    · simp at hc
  | cons line rest ih =>
    intro chunk curLen part hne hcur hle hlines c hc
    rw [chunkLoop] at hc
    by_cases hover : 3500 < curLen + line.length + 1
    · rw [if_pos hover] at hc
      rcases List.mem_cons.mp hc with rfl | hc'
      · omega
      · have hh : (∀ l ∈ rest, ∀ q : Nat, part + 1 < q →
            q ≤ part + 1 + rest.length →
            (partHeader q).length + l.length + 1 ≤ 3500) := by
          intro l hl q h1 h2
          exact hlines l (List.mem_cons_of_mem _ hl) q (by omega) (by
            simp only [List.length_cons]
            omega)
        have hfit : (partHeader (part + 1)).length + line.length + 1 ≤
            3500 := by
          refine hlines line (List.mem_cons_self _ _) (part + 1)
            (by omega) ?_
          simp only [List.length_cons]
          omega
        refine ih [partHeader (part + 1), line] _ (part + 1)
          (by simp) ?_ (by omega) hh c hc'
        rw [joinNL_cons₂]
        simp only [joinNL, String.length_append]
        have hnl : ("\n" : String).length = 1 := rfl
        omega
    · rw [if_neg hover] at hc
      have hh : (∀ l ∈ rest, ∀ q : Nat, part < q →
          q ≤ part + rest.length →
          (partHeader q).length + l.length + 1 ≤ 3500) := by
        intro l hl q h1 h2
        exact hlines l (List.mem_cons_of_mem _ hl) q h1 (by
          simp only [List.length_cons]
          omega)
      refine ih (chunk ++ [line]) _ part (by simp) ?_ (by omega) hh c hc
      rw [joinNL_snoc chunk line hne]
      simp only [String.length_append]
      have hnl : ("\n" : String).length = 1 := rfl
      omega

/-- C10: whenever the digest is split, every chunk the loop emits joins
to a message of at most 3500 characters, provided each line fits in a
fresh chunk after its header; and a single line longer than the budget
is still placed in its own chunk, which then exceeds 3500. -/
theorem claim_C10 (lines : List String)
    (h : ∀ l ∈ lines, ∀ q : Nat, 1 ≤ q → q ≤ 1 + lines.length →
      (partHeader q).length + l.length + 1 ≤ 3500) :
    (∀ c ∈ digestChunks lines, (joinNL c).length ≤ 3500) ∧
    (∀ big : String, 3500 < (partHeader 1).length + big.length + 1 →
      ∃ c ∈ digestChunks [big], 3500 < (joinNL c).length) := by
  constructor
  · intro c hc
    refine chunkLoop_le lines [partHeader 1] _ 1 (by simp) rfl
      (by decide) ?_ c hc
    intro l hl q h1 h2
    exact h l hl q (by omega) h2
  · intro big hbig
    refine ⟨[partHeader 2, big], ?_, ?_⟩
    · unfold digestChunks
      rw [chunkLoop, if_pos hbig, chunkLoop, if_pos (by simp)]
      simp
    · rw [joinNL_cons₂]
      have h12 : (partHeader 2).length = (partHeader 1).length := by decide
      simp only [joinNL, String.length_append]
      have hnl : ("\n" : String).length = 1 := rfl
      omega

/-- Witness for C10 on a one-line digest that fits the budget. -/
theorem claim_C10_witness :
    (∀ l ∈ ["• Ann: 17.03 (7 days)"], ∀ q : Nat, 1 ≤ q →
      q ≤ 1 + (["• Ann: 17.03 (7 days)"] : List String).length →
      (partHeader q).length + l.length + 1 ≤ 3500) ∧
    (∀ c ∈ digestChunks ["• Ann: 17.03 (7 days)"],
      (joinNL c).length ≤ 3500) := by
  have hhyp : ∀ l ∈ (["• Ann: 17.03 (7 days)"] : List String),
      ∀ q : Nat, 1 ≤ q →
      q ≤ 1 + (["• Ann: 17.03 (7 days)"] : List String).length →
      (partHeader q).length + l.length + 1 ≤ 3500 := by
    intro l hl q h1 h2
    simp only [List.mem_singleton] at hl
    subst hl
    simp only [List.length_singleton] at h2
    interval_cases q <;> decide
  exact ⟨hhyp, (claim_C10 _ hhyp).1⟩

/-! Structure of the rendered messages. -/

theorem data_append (a b : String) : (a ++ b).data = a.data ++ b.data := rfl

theorem strIncludes_parts (hay pre mid post : String)
    (h : hay.data = pre.data ++ mid.data ++ post.data) :
    strIncludes hay mid :=
  ⟨pre.data, post.data, h⟩

theorem joinNL_head (s : String) (rest : List String) :
    ∃ t : String, joinNL (s :: rest) = s ++ t := by
  cases rest with
  | nil =>
    refine ⟨"", ?_⟩
    simp [joinNL]
  | cons b bl =>
    refine ⟨"\n" ++ joinNL (b :: bl), ?_⟩
    rw [joinNL_cons₂, String.append_assoc]

theorem format_person_info_head (name : String) (row : Row) :
    ∃ t : String, format_person_info name row = ("👤 " ++ name) ++ t := by
  simp only [format_person_info]
  cases h1 : getField row phone_fields <;>
    cases h2 : getField row telegram_fields <;>
    exact joinNL_head _ _

theorem milestoneTextReminder_empty_iff (age : Int) :
    milestoneTextReminder age = "" ↔ is_milestone_age age = false := by
  unfold milestoneTextReminder
  cases h : is_milestone_age age
  · simp
  · simp only [if_true]
    constructor
    · intro heq
      have hlen := congrArg String.length heq
      simp only [String.length_append] at hlen
      have hpos : 0 < ("\n🎊 MILESTONE BIRTHDAY! Turning " : String).length :=
        by decide
      have : ("" : String).length = 0 := rfl
      omega
    · intro hfalse
      cases hfalse

theorem milestoneTextToday_empty_iff (age : Int) :
    milestoneTextToday age = "" ↔ is_milestone_age age = false := by
  unfold milestoneTextToday
  cases h : is_milestone_age age
  · simp
  · simp only [if_true]
    constructor
    · intro heq
      have hlen := congrArg String.length heq
      simp only [String.length_append] at hlen
      have hpos :
          0 < ("\n🎊 MILESTONE BIRTHDAY! They\u0027re turning " :
            String).length := by decide
      have : ("" : String).length = 0 := rfl
      omega
    · intro hfalse
      cases hfalse

/-- C9 (amended): both reminder messages carry the person's name, the
7/1-day reminder also carries the formatted `next_date` and the delta
phrasing, the same-day greeting carries no date, and every message ends
with a milestone suffix that is non-empty exactly when the age is in the
milestone set; the age used is target year minus birth year, less one
before the birthday's month/day. -/
theorem claim_C9_amended (name : String) (row : Row) (delta : Int)
    (nextBday : Date) (age : Int) :
    strIncludes (reminderMessage name row delta nextBday age) name ∧
    strIncludes (reminderMessage name row delta nextBday age)
      (formatYMD nextBday) ∧
    strIncludes (reminderMessage name row delta nextBday age)
      (toString delta) ∧
    strIncludes (todayMessage name row age) name ∧
    (milestoneTextReminder age = "" ↔ is_milestone_age age = false) ∧
    (∃ base, reminderMessage name row delta nextBday age =
      base ++ milestoneTextReminder age) ∧
    (milestoneTextToday age = "" ↔ is_milestone_age age = false) ∧
    (∃ base, todayMessage name row age = base ++ milestoneTextToday age) ∧
    (∀ b t : Date, calculate_age b t =
      if t.month < b.month ∨ (t.month = b.month ∧ t.day < b.day)
      then (t.year : Int) - b.year - 1 else (t.year : Int) - b.year) := by
  obtain ⟨tl, htl⟩ := format_person_info_head name row
  refine ⟨?_, ?_, ?_, ?_, milestoneTextReminder_empty_iff age, ⟨_, rfl⟩,
    milestoneTextToday_empty_iff age, ⟨_, rfl⟩, ?_⟩
  · refine strIncludes_parts _
      ("❗ Birthday Reminder (" ++ toString delta ++ " " ++
        (if delta = 7 then "days" else "day") ++ " left)\n\n" ++ "👤 ")
      name
      (tl ++ "\n\n❗ Birthday: " ++ formatYMD nextBday ++
        milestoneTextReminder age) ?_
    simp [reminderMessage, htl, data_append, List.append_assoc]
  · refine strIncludes_parts _
      ("❗ Birthday Reminder (" ++ toString delta ++ " " ++
        (if delta = 7 then "days" else "day") ++ " left)\n\n" ++
        format_person_info name row ++ "\n\n❗ Birthday: ")
      (formatYMD nextBday)
      (milestoneTextReminder age) ?_
    simp [reminderMessage, data_append, List.append_assoc]
  · refine strIncludes_parts _ "❗ Birthday Reminder ("
      (toString delta)
      (" " ++ (if delta = 7 then "days" else "day") ++ " left)\n\n" ++
        format_person_info name row ++ "\n\n❗ Birthday: " ++
        formatYMD nextBday ++ milestoneTextReminder age) ?_
    simp [reminderMessage, data_append, List.append_assoc]
  · refine strIncludes_parts _ ("🟢 Happy Birthday! 🟢\n\n" ++ "👤 ")
      name
      (tl ++ "\n\n🛑 Don`t forget to greet!" ++ milestoneTextToday age) ?_
    simp [todayMessage, htl, data_append, List.append_assoc]
  · intro b t
    unfold calculate_age
    by_cases hc : t.month < b.month ∨ (t.month = b.month ∧ t.day < b.day)
    · rw [if_pos hc, if_pos hc]
    · rw [if_neg hc, if_neg hc]
      ring

/-- C9 (counterexample): the same-day greeting for Carol (born
1995-03-10, today 2024-03-10) does not contain the formatted
`next_date` "2024-03-10" anywhere, refuting the claim that every
notification kind renders the next date. -/
theorem claim_C9_counterexample :
    ¬ strIncludes (todayMessage "Carol" [] 29) (formatYMD ⟨2024, 3, 10⟩) := by
  rw [strIncludes_iff]
  decide

end BirthdayBot
